import Mathlib

/-
Verification development for mhtml_from_zip.py: a converter that packs a
ZIP archive holding an HTML document and its images into a single MHTML
file.

Embedding conventions, stated once here:

* Bytes are modelled as `List Nat` (each element the value of one byte).
* Strings are Lean `String`s; the program manipulates Python `str`s whose
  operations used here (slicing, startswith/endswith, lower on ASCII
  suffixes, split, replace of single characters) coincide with the Lean
  counterparts defined below over `String.data`.
* `os.path` is modelled with POSIX semantics (`posixpath`), transcribed
  function by function from CPython (`dirname`, `join`, `normpath`).
* A ZIP byte buffer is modelled by the inductive `Blob`: either bytes that
  do not open as an archive (`Blob.raw`), or an archive (`Blob.zip`) with
  its total byte length and its ordered entry list (stored entry name,
  entry content).  The byte length of a nested archive is not a function
  of its entry list in reality, so `Blob.zip` records it explicitly; two
  distinct archives may share a byte length, as real ZIP files can.
* External collaborators named by the spec (percent-decoding, MIME type
  guessing, unique token generation, entry reading) are injected through
  the `Collab` structure, as the spec's design notes prescribe.
* Python's `re.sub(essential_img_src_re, replace_img_src, text)` applies
  `replace_img_src` to the non-overlapping matches in order, splicing the
  returned strings between the unchanged gaps.  The regex engine is the
  `re` library; the pass is modelled as the fold `rewritePass` of the
  translated `replace_img_src` over the list of matches, each match
  carrying the three captured groups.
-/

/- § Character and string helpers -/

def bslash : Char := Char.ofNat 92

def repl_sep (c : Char) : Char := if c = bslash then '/' else c

/-- `normalize_zip_path`: `p.replace("\\", "/")`. -/
def normalize_zip_path (p : String) : String := String.mk (p.data.map repl_sep)

/-- Python `s.split(sep, 1)[0]` for a one-character separator. -/
def pySplitHead (sep : Char) (s : String) : String :=
  String.mk (s.data.takeWhile (fun c => c != sep))

/-- `s.startswith(p)`. -/
def strStartsWith (s p : String) : Bool := p.data.isPrefixOf s.data

/-- `s.endswith(p)`. -/
def strEndsWith (s p : String) : Bool := p.data.isSuffixOf s.data

/-- `s.lower()` (ASCII; every character the program compares is ASCII). -/
def strToLower (s : String) : String := String.mk (s.data.map Char.toLower)

/-- Python `s.split(sep)` for a one-character separator. -/
def splitChar (sep : Char) : List Char → List (List Char)
  | [] => [[]]
  | c :: rest =>
    let r := splitChar sep rest
    if c = sep then [] :: r
    else
      match r with
      | [] => [[c]]
      | h :: t => (c :: h) :: t

/-- Python `"/".join(...)` on character lists. -/
def joinSlash : List (List Char) → List Char
  | [] => []
  | [x] => x
  | x :: y :: rest => x ++ '/' :: joinSlash (y :: rest)

/- § posixpath (CPython), used by resolve_rel_path -/

/-- `posixpath.dirname`: everything up to the last slash, right-stripped of
slashes unless it is all slashes. -/
def pdirname (p : String) : String :=
  let head := (p.data.reverse.dropWhile (fun c => c != '/')).reverse
  if head ≠ [] ∧ head.any (fun c => c != '/') then
    String.mk ((head.reverse.dropWhile (fun c => c == '/')).reverse)
  else String.mk head

/-- `posixpath.join` for two arguments. -/
def pjoin (a b : String) : String :=
  if strStartsWith b "/" then b
  else if a = "" ∨ strEndsWith a "/" then a ++ b
  else a ++ "/" ++ b

/-- One step of the component loop inside `posixpath.normpath`. -/
def normStep (abs0 : Bool) (acc : List String) (comp : String) : List String :=
  if comp = "" ∨ comp = "." then acc
  else if comp ≠ ".." ∨ (abs0 = false ∧ acc = []) ∨ (acc ≠ [] ∧ acc.getLast? = some "..") then
    acc ++ [comp]
  else if acc ≠ [] then acc.dropLast
  else acc

/-- `posixpath.normpath`, transcribed from CPython. -/
def normpathPosix (p : String) : String :=
  let slashes : Nat :=
    if strStartsWith p "/" then
      (if strStartsWith p "//" ∧ ¬ strStartsWith p "///" then 2 else 1)
    else 0
  let comps := ((splitChar '/' p.data).map String.mk).foldl (normStep (slashes != 0)) []
  let out := String.mk (List.replicate slashes '/' ++ joinSlash (comps.map String.data))
  if out = "" then "." else out

/-- Python `s.lstrip("/\\")`. -/
def lstripSeps (s : String) : String :=
  String.mk (s.data.dropWhile (fun c => c == '/' || c == bslash))

/-- `resolve_rel_path`: root-relative references are stripped of leading
separators and normalized; others are joined to the base document's
directory and normalized; the result is forced to forward slashes. -/
def resolve_rel_path (baseHtml refPath : String) : String :=
  let baseDir := pdirname baseHtml
  let joined :=
    if strStartsWith refPath "/" ∨ strStartsWith refPath "\\" then
      normpathPosix (lstripSeps refPath)
    else normpathPosix (pjoin baseDir refPath)
  normalize_zip_path joined

/- § detect_encoding -/

/-- Bytes of an ASCII test string. -/
def strBytes (s : String) : List Nat := s.data.map Char.toNat

/-- `bytes.decode("ascii", errors="ignore")`: bytes below 128 survive. -/
def asciiIgnore (bs : List Nat) : List Char :=
  (bs.filter (fun b => b < 128)).map Char.ofNat

/-- A character of the regex class `[A-Za-z0-9_\-]`. -/
def tokenChar (c : Char) : Bool := c.isAlpha || c.isDigit || c == '_' || c == '-'

/-- Does the list begin with `charset=`, case-insensitively? -/
def charsetAt (l : List Char) : Bool :=
  (l.take 8).map Char.toLower = ['c', 'h', 'a', 'r', 's', 'e', 't', '=']

/-- The group `["\']?([A-Za-z0-9_\-]+)` of the charset regex: an optional
quote, then a non-empty token run (with the regex's backtracking: a quote
not followed by a token character fails the whole position). -/
def tokenAfter (l : List Char) : Option (List Char) :=
  match l with
  | [] => none
  | c :: rest =>
    if tokenChar c then some ((c :: rest).takeWhile tokenChar)
    else if c == Char.ofNat 34 || c == Char.ofNat 39 then
      match rest with
      | [] => none
      | d :: _ => if tokenChar d then some (rest.takeWhile tokenChar) else none
    else none

/-- `re.search(r"charset=[\"\']?([A-Za-z0-9_\-]+)", head, re.I)`: leftmost
position where the whole pattern matches, returning group 1. -/
def charsetSearch : List Char → Option String
  | [] => none
  | c :: rest =>
    if charsetAt (c :: rest) then
      match tokenAfter ((c :: rest).drop 8) with
      | some tok => some (String.mk tok)
      | none => charsetSearch rest
    else charsetSearch rest

/-- `detect_encoding`: BOM sniffing first, then a charset declaration in
the first 8192 bytes, then the utf-8 default. -/
def detect_encoding (b : List Nat) : String :=
  if [0xEF, 0xBB, 0xBF].isPrefixOf b then "utf-8"
  else if [0xFF, 0xFE].isPrefixOf b then "utf-16le"
  else if [0xFE, 0xFF].isPrefixOf b then "utf-16be"
  else
    match charsetSearch (asciiIgnore (b.take 8192)) with
    | some t => strToLower t
    | none => "utf-8"

/-- Modelled from the spec: the decoding collaborator (`bytes.decode` of
the platform, outside src/) accepts only names registered in its codec
registry; this predicate models that registry by the standard encoding
names relevant here.  A token such as `qqq` names no codec and decoding
with it fails with a lookup error. -/
def registeredCodec (s : String) : Bool :=
  decide (s ∈ ["utf-8", "utf-16le", "utf-16be", "utf-16", "utf-32", "ascii", "latin-1",
   "iso-8859-1", "iso-8859-2", "gb2312", "gbk", "gb18030", "big5",
   "shift_jis", "euc-jp", "euc-kr", "windows-1250", "windows-1251",
   "windows-1252", "koi8-r", "cp437", "cp850"])

/- § HTML selection -/

/-- Does the lower-cased name end in `.html` or `.htm`? -/
def isHtmlName (n : String) : Bool :=
  let ln := strToLower n
  strEndsWith ln ".html" || strEndsWith ln ".htm"

/-- `pick_main_html`: first name ending in `.html`/`.htm`, else `""`. -/
def pick_main_html : List String → String
  | [] => ""
  | n :: rest => if isHtmlName n then n else pick_main_html rest

/-- The distinct fatal errors `process_zip` can raise while locating and
selecting the main HTML (each constructor is one `raise` site; the
`RuntimeError` of line 164 serves both invalid archives and archives
without HTML, so it is a single constructor). -/
inductive PErr where
  | noHtmlLayerFound
  | htmlOverrideNotFound
  | noHtmlFound
deriving DecidableEq, Repr

/-- The no-override selection of `process_zip` (lines 176-178). -/
def autoSelect (names : List String) : Except PErr String :=
  let h := pick_main_html names
  if h = "" then Except.error PErr.noHtmlFound else Except.ok h

/-- The selection logic of `process_zip` (lines 170-178); note that the
source guards with Python truthiness (`if html_name_override:`), so an
empty-string override takes the no-override branch. -/
def selectHtml (names : List String) (ov : Option String) : Except PErr String :=
  match ov with
  | some o =>
    if o = "" then autoSelect names
    else if o ∈ names then Except.ok o
    else Except.error PErr.htmlOverrideNotFound
  | none => autoSelect names

/- § Archive model and find_leaf_zip_with_html -/

/-- A byte buffer as the archive opener sees it: either not a valid ZIP,
or a ZIP with its total byte length and its entries in listing order,
each entry carrying its stored name and its content. -/
inductive Blob where
  | raw : List Nat → Blob
  | zip : Nat → List (String × Blob) → Blob

/-- `len` of the buffer (for `Blob.zip` the recorded container length). -/
def Blob.size : Blob → Nat
  | Blob.raw bs => bs.length
  | Blob.zip len _ => len

/-- Does the lower-cased name end in `.zip`? -/
def isZipName (n : String) : Bool := strEndsWith (strToLower n) ".zip"

/-- `zf.read(n)`: look up the stored entry whose name is exactly `n`
(ZipFile's name table keeps the last entry for a duplicated name); `none`
is the `KeyError` case. -/
def readEntryByName (es : List (String × Blob)) (n : String) : Option Blob :=
  (es.reverse.find? (fun e => decide (e.1 = n))).map (fun e => e.2)

/-- The body of the inner `for` loop of `find_leaf_zip_with_html.helper`,
one name at a time, threading the found-result and the `seen` set; once a
result is found the remaining iterations pass it through (the Python
`return`). -/
def findStep (recur : Blob → List (String × Nat) → Option Blob × List (String × Nat))
    (es : List (String × Blob)) (acc : Option Blob × List (String × Nat)) (n : String) :
    Option Blob × List (String × Nat) :=
  match acc with
  | (some r, s) => (some r, s)
  | (none, s) =>
    if isZipName n = false then (none, s)
    else
      match readEntryByName es n with
      | none => (none, s)
      | some child =>
        let key := (n, Blob.size child)
        if key ∈ s then (none, s)
        else recur child (key :: s)

/-- `find_leaf_zip_with_html.helper`, with `fuel = max_depth + 1 - depth`
(the guard `depth > max_depth` is `fuel = 0`); the `seen` set is the
closure variable threaded through the whole traversal. -/
def findHelper : Nat → Blob → List (String × Nat) → Option Blob × List (String × Nat)
  | 0, _, seen => (none, seen)
  | _ + 1, Blob.raw _, seen => (none, seen)
  | fuel + 1, Blob.zip len es, seen =>
    let names := es.map (fun e => normalize_zip_path e.1)
    if names.any isHtmlName then (some (Blob.zip len es), seen)
    else names.foldl (findStep (fun c s => findHelper fuel c s) es) (none, seen)

/-- `find_leaf_zip_with_html(zip_bytes, max_depth)`. -/
def find_leaf_zip_with_html (b : Blob) (maxDepth : Nat) : Option Blob :=
  (findHelper (maxDepth + 1) b []).1

/-- The normalized entry names of a layer, as `process_zip` lists them. -/
def layerNames : Blob → List String
  | Blob.raw _ => []
  | Blob.zip _ es => es.map (fun e => normalize_zip_path e.1)

/-- Reference predicate for the claims: some layer reachable within the
depth budget by descending into `.zip`-named entries contains an
`.html`/`.htm` entry (the full tree, with no visited-set pruning and no
read failures). -/
def existsHtmlWithin : Nat → Blob → Bool
  | 0, _ => false
  | _ + 1, Blob.raw _ => false
  | fuel + 1, Blob.zip _ es =>
    (es.map (fun e => normalize_zip_path e.1)).any isHtmlName ||
      es.any (fun e => isZipName (normalize_zip_path e.1) && existsHtmlWithin fuel e.2)

/-- The front of `process_zip`: locate the HTML-bearing layer (the single
`RuntimeError` of line 164 when none is found, which is also the path
taken for buffers that are not valid archives) and select the main HTML.
The later stages (decode, rewrite, package) are modelled separately below
and run only after this succeeds. -/
def process_zip_select (b : Blob) (ov : Option String) : Except PErr String :=
  match find_leaf_zip_with_html b 10 with
  | none => Except.error PErr.noHtmlLayerFound
  | some leaf => selectHtml (layerNames leaf) ov

/- § Concrete archives used by the theorems -/

/-- A flat layer holding one HTML file. -/
def nestZip : Nat → Blob
  | 0 => Blob.zip 2 [("index.html", Blob.raw [104])]
  | k + 1 => Blob.zip (k + 3) [("inner.zip", nestZip k)]

def cexInnerHtml : Blob := Blob.zip 7 [("index.html", Blob.raw [104])]

/-- An archive whose sole child ZIP is stored under a backslash name: the
traversal reads entries by *normalized* name, so `zf.read` raises
`KeyError` and the child is skipped. -/
def cexBackslash : Blob := Blob.zip 9 [("a\\b.zip", cexInnerHtml)]

def cexSeenEmpty : Blob := Blob.zip 100 []

def cexSeenHtml : Blob := Blob.zip 100 [("index.html", Blob.raw [104])]

def cexSeenD : Blob := Blob.zip 300 [("c.zip", cexSeenHtml)]

/-- An archive with two sibling ZIPs whose inner entries collide on the
`(name, byte length)` visited key: the HTML-bearing one is pruned. -/
def cexSeen : Blob := Blob.zip 500 [("c.zip", cexSeenEmpty), ("d.zip", cexSeenD)]

/- § Reference rewriter (replace_img_src over the regex matches) -/

/-- One match of `essential_img_src_re`: group 1 (everything up to and
including the attribute assignment), group 2 (the quote character), and
group 3 (the quoted value); group 4 repeats the quote. -/
structure ImgMatch where
  pre : String
  quote : String
  path : String

/-- `m.group(0)`. -/
def ImgMatch.whole (m : ImgMatch) : String := m.pre ++ m.quote ++ m.path ++ m.quote

/-- The external collaborators consumed by the rewriter, injected as the
spec's design notes direct: `urllib.parse.unquote` (`none` models the
caught exception), `mimetypes.guess_type`, `zf.read` on a resolved path,
and the fresh-token generator (`uuid.uuid4().hex + "@mhtml"`) as a
function of how many tokens were generated before. -/
structure Collab where
  unquote : String → Option String
  guessMime : String → Option String
  readEntry : String → List Nat
  cid : Nat → String

/-- One inlined image: `{"name": ..., "cid": ..., "data": ..., "mime": ...}`. -/
structure Resource where
  name : String
  cid : String
  data : List Nat
  mime : String

/-- The mutable state closed over by `replace_img_src`: `resources`,
`cid_map`, `inlined`, plus the count of generated tokens. -/
structure RState where
  resources : List Resource
  cidMap : List (String × String)
  inlined : List String
  counter : Nat

def initState : RState := ⟨[], [], [], 0⟩

/-- Lookup in `cid_map` (a Python dict keyed by canonical path). -/
def lookupStr (k : String) : List (String × String) → Option String
  | [] => none
  | (a, b) :: rest => if k = a then some b else lookupStr k rest

/-- Strip the fragment, then the query: `path.split("#", 1)[0].split("?", 1)[0]`. -/
def pathCoreOf (p : String) : String := pySplitHead '?' (pySplitHead '#' p)

/-- `external_scheme_re`: `^(https?:|data:|cid:|//)` case-insensitively. -/
def remoteScheme (s : String) : Bool :=
  let l := strToLower s
  strStartsWith l "http:" || strStartsWith l "https:" || strStartsWith l "data:" ||
    strStartsWith l "cid:" || strStartsWith l "//"

/-- The candidate list: the path core, plus its percent-decoded form when
decoding succeeds and changes it. -/
def candidateList (co : Collab) (core : String) : List String :=
  core :: (match co.unquote core with
    | some d => if d = core then [] else [d]
    | none => [])

/-- The replacement text `f"{prefix}{quote}cid:{cid}{quote}"`. -/
def cidReplacement (m : ImgMatch) (c : String) : String :=
  m.pre ++ m.quote ++ "cid:" ++ c ++ m.quote

/-- The canonical path the match resolves to, if any: `none` when the
core is an external reference or no candidate resolves into the entry
set. -/
def resolvedOf (co : Collab) (hn : String) (ns : List String) (m : ImgMatch) : Option String :=
  let core := pathCoreOf m.path
  if remoteScheme core then none
  else
    ((candidateList co core).find? (fun c => decide (resolve_rel_path hn c ∈ ns))).map
      (fun c => resolve_rel_path hn c)

/-- `replace_img_src`, acting on one match and the rewrite state. -/
def replace_img_src (co : Collab) (hn : String) (ns : List String) (st : RState)
    (m : ImgMatch) : String × RState :=
  let core := pathCoreOf m.path
  if remoteScheme core then (m.whole, st)
  else
    match (candidateList co core).find? (fun c => decide (resolve_rel_path hn c ∈ ns)) with
    | none => (m.whole, st)
    | some cand =>
      let rel := resolve_rel_path hn cand
      match lookupStr rel st.cidMap with
      | some c => (cidReplacement m c, st)
      | none =>
        let c := co.cid st.counter
        let res : Resource :=
          ⟨rel, c, co.readEntry rel, (co.guessMime rel).getD "application/octet-stream"⟩
        (cidReplacement m c,
          ⟨st.resources ++ [res], st.cidMap ++ [(rel, c)], st.inlined ++ [rel],
            st.counter + 1⟩)

/-- `re.sub(essential_img_src_re, replace_img_src, html_text)`, viewed on
the match list: the replacement string of each match in order, and the
final state; the full output text is these strings spliced between the
unchanged gaps. -/
def rewritePass (co : Collab) (hn : String) (ns : List String) :
    RState → List ImgMatch → List String × RState
  | st, [] => ([], st)
  | st, m :: ms =>
    let p := replace_img_src co hn ns st m
    let rest := rewritePass co hn ns p.2 ms
    (p.1 :: rest.1, rest.2)

/- § MIME packaging (build_mhtml, header-level) -/

/-- Python `mime.split("/", 1)`. -/
def pySplitOnce (sep : Char) (s : String) : List String :=
  if s.data.contains sep then
    [String.mk (s.data.takeWhile (fun c => c != sep)),
     String.mk ((s.data.dropWhile (fun c => c != sep)).drop 1)]
  else [s]

/-- The headers of one MIME part of the output container. -/
structure MimePart where
  maintype : String
  subtype : String
  cid : Option String
  location : String

/-- One resource part of `build_mhtml`: maintype and subtype from
`(mime.split("/", 1) + ["octet-stream"])[:2]`, a bracketed Content-ID and
the original path as Content-Location.  (`res.get("mime", ...)` always
finds the key for resources built by `replace_img_src`.) -/
def resource_part (res : Resource) : MimePart :=
  let parts := pySplitOnce '/' res.mime ++ ["octet-stream"]
  { maintype := parts.getD 0 "", subtype := parts.getD 1 "",
    cid := some ("<" ++ res.cid ++ ">"), location := res.name }

/-- `posixpath.basename`. -/
def pbasename (p : String) : String :=
  String.mk ((p.data.reverse.takeWhile (fun c => c != '/')).reverse)

/-- The container built by `build_mhtml`, at header level: the root's
content type, the HTML part's location (`basename or "index.html"`), and
the resource parts in order. -/
structure MhtmlModel where
  rootType : String
  htmlPart : MimePart
  resourceParts : List MimePart

def build_mhtml (htmlName : String) (resources : List Resource) : MhtmlModel :=
  { rootType := "multipart/related",
    htmlPart :=
      { maintype := "text", subtype := "html", cid := none,
        location := if pbasename htmlName = "" then "index.html" else pbasename htmlName },
    resourceParts := resources.map resource_part }

/- § Invariant of the rewrite state and concrete instances for witnesses -/

/-- The dedup invariant maintained by the rewrite pass: the keys of
`cid_map` are exactly the resource names, without repetition. -/
def stInv (st : RState) : Prop :=
  (∀ k : String,
      (lookupStr k st.cidMap).isSome = true ↔ k ∈ st.resources.map (fun x => x.name)) ∧
  (st.resources.map (fun x => x.name)).Nodup

/-- A concrete collaborator pack for witnesses: identity percent-decoding,
no MIME guess, empty entry bytes, counter-based tokens. -/
def coId : Collab :=
  ⟨fun s => some s, fun _ => none, fun _ => [], fun k => Nat.repr k ++ "@mhtml"⟩

def mRemote : ImgMatch := ⟨"<img src=", "\"", "https://x/y.png"⟩

def mMissing : ImgMatch := ⟨"<img src=", "\"", "missing/not-there.png"⟩

/-- Two spellings of the same archive path. -/
def msPair : List ImgMatch :=
  [⟨"<img src=", "\"", "img/a.png"⟩, ⟨"<img id=\"x\" src=", "\"", "./img/a.png"⟩]

def bogusRes : Resource := ⟨"r.bin", "abc@mhtml", [], "bogus"⟩

def layer0 : Blob :=
  Blob.zip 4 [("sub/Index.HTML", Blob.raw [104]), ("img/a.png", Blob.raw [1])]

/- § Theorems -/

lemma bslash_not_mem_normalize (s : String) : bslash ∉ (normalize_zip_path s).data := by
  intro h
  have h2 : bslash ∈ s.data.map repl_sep := h
  rw [List.mem_map] at h2
  obtain ⟨a, -, ha⟩ := h2
  by_cases hc : a = bslash
  · rw [repl_sep, if_pos hc] at ha
    exact absurd ha (by decide)
  · rw [repl_sep, if_neg hc] at ha
    exact hc ha

/-- C3: the Path Resolver treats a reference beginning with a path
separator as rooted at the archive root (the base document is ignored
entirely), resolves the spec's root-relative example against the archive
root rather than the base directory, collapses dot segments when joining,
and never returns a path containing a backslash. -/
theorem resolve_rel_path_props :
    (∀ base1 base2 ref : String,
        (strStartsWith ref "/" ∨ strStartsWith ref "\\") →
        resolve_rel_path base1 ref = resolve_rel_path base2 ref) ∧
    resolve_rel_path "sub/index.html" "/img/a.png" = "img/a.png" ∧
    resolve_rel_path "sub/index.html" "./img/../img/a.png" = "sub/img/a.png" ∧
    (∀ base ref : String, bslash ∉ (resolve_rel_path base ref).data) := by
  refine ⟨?_, by decide, by decide, ?_⟩
  · intro base1 base2 ref h
    simp only [resolve_rel_path]
    rw [if_pos h, if_pos h]
  · intro base ref
    simp only [resolve_rel_path]
    exact bslash_not_mem_normalize _

/-- Witness for C3 at a concrete root-relative reference. -/
theorem resolve_rel_path_props_witness :
    resolve_rel_path "a/b.html" "/x.png" = resolve_rel_path "zz/q.html" "/x.png" :=
  resolve_rel_path_props.1 "a/b.html" "zz/q.html" "/x.png" (Or.inl (by decide))

/-- C4: detect_encoding returns "utf-8" for a UTF-8 BOM (also against a
conflicting charset declaration), the matching UTF-16 name for a UTF-16
LE/BE BOM, otherwise the lower-cased charset token found in the first
8192 bytes decoded as ASCII ignoring undecodable bytes, otherwise
"utf-8"; the spec's gb2312 example and the BOM-over-meta example hold. -/
theorem detect_encoding_priority :
    (∀ b : List Nat, [0xEF, 0xBB, 0xBF].isPrefixOf b = true →
        detect_encoding b = "utf-8") ∧
    (∀ b : List Nat, [0xEF, 0xBB, 0xBF].isPrefixOf b = false →
        [0xFF, 0xFE].isPrefixOf b = true → detect_encoding b = "utf-16le") ∧
    (∀ b : List Nat, [0xEF, 0xBB, 0xBF].isPrefixOf b = false →
        [0xFF, 0xFE].isPrefixOf b = false → [0xFE, 0xFF].isPrefixOf b = true →
        detect_encoding b = "utf-16be") ∧
    (∀ b : List Nat, [0xEF, 0xBB, 0xBF].isPrefixOf b = false →
        [0xFF, 0xFE].isPrefixOf b = false → [0xFE, 0xFF].isPrefixOf b = false →
        detect_encoding b =
          match charsetSearch (asciiIgnore (b.take 8192)) with
          | some t => strToLower t
          | none => "utf-8") ∧
    detect_encoding (strBytes "<meta charset=\"gb2312\">") = "gb2312" ∧
    detect_encoding ([0xEF, 0xBB, 0xBF] ++ strBytes "<meta charset=\"gb2312\">") = "utf-8" := by
  refine ⟨?_, ?_, ?_, ?_, by decide, by decide⟩
  · intro b h1; simp [detect_encoding, h1]
  · intro b h1 h2; simp [detect_encoding, h1, h2]
  · intro b h1 h2 h3; simp [detect_encoding, h1, h2, h3]
  · intro b h1 h2 h3; simp [detect_encoding, h1, h2, h3]

/-- Witness for C4 on concrete buffers for each priority branch. -/
theorem detect_encoding_priority_witness :
    detect_encoding [0xEF, 0xBB, 0xBF] = "utf-8" ∧
    detect_encoding [0xFF, 0xFE] = "utf-16le" ∧
    detect_encoding [0xFE, 0xFF] = "utf-16be" ∧
    detect_encoding (strBytes "x") =
      match charsetSearch (asciiIgnore ((strBytes "x").take 8192)) with
      | some t => strToLower t
      | none => "utf-8" :=
  ⟨detect_encoding_priority.1 _ (by decide),
   detect_encoding_priority.2.1 _ (by decide) (by decide),
   detect_encoding_priority.2.2.1 _ (by decide) (by decide) (by decide),
   detect_encoding_priority.2.2.2.1 _ (by decide) (by decide) (by decide)⟩

/-- Counterexample to C8: the detector copies the charset token out of
the document verbatim, so a declaration `charset=qqq` makes it return a
name that is in no codec registry; decoding with it fails with a lookup
error, contradicting "decoding with the returned name never fails". -/
theorem detect_usable_cex :
    detect_encoding (strBytes "<meta charset=qqq>") = "qqq" ∧
    registeredCodec (detect_encoding (strBytes "<meta charset=qqq>")) = false := by
  exact ⟨by decide, by decide⟩

/-- C8 amended: the detector itself is total and unmatched, malformed or
truncated charset declarations fall through to the "utf-8" default; but
when a declaration matches, its token is returned verbatim (lower-cased),
whether or not it names a registered codec, so decoding with the returned
name can fail. -/
theorem detect_total_fallthrough :
    (∀ b : List Nat, [0xEF, 0xBB, 0xBF].isPrefixOf b = false →
        [0xFF, 0xFE].isPrefixOf b = false → [0xFE, 0xFF].isPrefixOf b = false →
        charsetSearch (asciiIgnore (b.take 8192)) = none → detect_encoding b = "utf-8") ∧
    (∀ (b : List Nat) (t : String), [0xEF, 0xBB, 0xBF].isPrefixOf b = false →
        [0xFF, 0xFE].isPrefixOf b = false → [0xFE, 0xFF].isPrefixOf b = false →
        charsetSearch (asciiIgnore (b.take 8192)) = some t →
        detect_encoding b = strToLower t) ∧
    detect_encoding (strBytes "<meta charset=>") = "utf-8" := by
  refine ⟨?_, ?_, by decide⟩
  · intro b h1 h2 h3 h4; simp [detect_encoding, h1, h2, h3, h4]
  · intro b t h1 h2 h3 h4; simp [detect_encoding, h1, h2, h3, h4]

/-- Witness for C8's amended statement. -/
theorem detect_total_fallthrough_witness :
    detect_encoding (strBytes "<p>hello</p>") = "utf-8" ∧
    detect_encoding (strBytes "<meta charset=QQQ>") = strToLower "QQQ" :=
  ⟨detect_total_fallthrough.1 _ (by decide) (by decide) (by decide) (by decide),
   detect_total_fallthrough.2.1 _ "QQQ" (by decide) (by decide) (by decide) (by decide)⟩

/-- Counterexample to C7: for the malformed MIME string "bogus" the
packager emits maintype "bogus" (the malformed string itself), not
maintype "application". -/
theorem mime_fallback_cex :
    (resource_part bogusRes).maintype = "bogus" ∧
    (resource_part bogusRes).subtype = "octet-stream" ∧
    (resource_part bogusRes).maintype ≠ "application" :=
  ⟨by decide, by decide, by decide⟩

/-- C7 amended: for a MIME string with no "/" separator the resource part
keeps the malformed string as maintype and falls back to "octet-stream"
only for the subtype. -/
theorem mime_fallback_amended (res : Resource)
    (h : res.mime.data.contains '/' = false) :
    (resource_part res).maintype = res.mime ∧
    (resource_part res).subtype = "octet-stream" := by
  have h2 : ¬ ('/' ∈ res.mime.data) := by simpa using h
  simp [resource_part, pySplitOnce, h2, List.getD]

/-- Witness for C7's amended statement. -/
theorem mime_fallback_amended_witness :
    (resource_part bogusRes).maintype = bogusRes.mime ∧
    (resource_part bogusRes).subtype = "octet-stream" :=
  mime_fallback_amended bogusRes (by decide)

/-- Counterexample to C9: the source guards the override with Python
truthiness, so the given override "" is treated as absent and the first
HTML entry is selected instead of failing with HtmlOverrideNotFound. -/
theorem override_truthiness_cex :
    selectHtml ["a.html"] (some "") = Except.ok "a.html" ∧ "" ∉ ["a.html"] :=
  ⟨rfl, by decide⟩

lemma pick_main_html_eq_find (names : List String) :
    pick_main_html names = (names.find? isHtmlName).getD "" := by
  induction names with
  | nil => rfl
  | cons n rest ih =>
    cases h : isHtmlName n with
    | true => simp [pick_main_html, h, List.find?_cons_of_pos, List.getD]
    | false => simp [pick_main_html, h, List.find?_cons_of_neg, ih]

/-- C9 amended: a non-empty override selects exactly the entry whose
canonical path equals it (even when another HTML entry appears earlier in
listing order) and fails with HtmlOverrideNotFound when none matches; an
empty-string override is treated as absent; without an effective override
the first entry ending in .html/.htm (case-insensitively) is selected. -/
theorem select_html_amended :
    (∀ (names : List String) (o : String), o ≠ "" →
        (o ∈ names → selectHtml names (some o) = Except.ok o) ∧
        (o ∉ names →
          selectHtml names (some o) = Except.error PErr.htmlOverrideNotFound)) ∧
    (∀ names : List String, selectHtml names (some "") = selectHtml names none) ∧
    (∀ names : List String,
        selectHtml names none =
          match names.find? isHtmlName with
          | some h => Except.ok h
          | none => Except.error PErr.noHtmlFound) := by
  refine ⟨?_, ?_, ?_⟩
  · intro names o ho
    constructor
    · intro hmem; simp [selectHtml, ho, hmem]
    · intro hmem; simp [selectHtml, ho, hmem]
  · intro names; simp [selectHtml]
  · intro names
    simp only [selectHtml, autoSelect, pick_main_html_eq_find]
    cases hf : names.find? isHtmlName with
    | none => simp [List.getD]
    | some h =>
      have hp : isHtmlName h = true := List.find?_some hf
      have hne : h ≠ "" := by
        intro he; rw [he] at hp; exact absurd hp (by decide)
      simp [List.getD, hne]

/-- Witness for C9's amended statement: override "b.html" wins over the
earlier "a.html"; absent override "c.html" is an error. -/
theorem select_html_amended_witness :
    selectHtml ["a.html", "b.html"] (some "b.html") = Except.ok "b.html" ∧
    selectHtml ["a.html", "b.html"] (some "c.html") =
      Except.error PErr.htmlOverrideNotFound :=
  ⟨(select_html_amended.1 ["a.html", "b.html"] "b.html" (by decide)).1 (by simp),
   (select_html_amended.1 ["a.html", "b.html"] "c.html" (by decide)).2 (by simp)⟩

/-- Counterexample to C6: a buffer that is not a valid archive makes the
conversion fail with the same NoHtmlLayerFound error that an HTML-less
archive produces; the code has no distinct BadArchive error kind. -/
theorem bad_archive_error_cex :
    process_zip_select (Blob.raw [80, 75]) none = Except.error PErr.noHtmlLayerFound ∧
    process_zip_select (Blob.zip 3 [("readme.txt", Blob.raw [])]) none =
      Except.error PErr.noHtmlLayerFound :=
  ⟨rfl, rfl⟩

/-- C6 amended: for every invalid-archive input the conversion fails with
the NoHtmlLayerFound error (the single RuntimeError of process_zip line
164), not a distinct BadArchive kind. -/
theorem bad_archive_same_error (bs : List Nat) (ov : Option String) :
    process_zip_select (Blob.raw bs) ov = Except.error PErr.noHtmlLayerFound := rfl

/-- Counterexample to C5: two archives each holding an HTML layer within
the depth limit on which the traversal nevertheless reports not-found.
In the first, the child ZIP is stored under a backslash name, is listed
under its normalized name, and the read-back by normalized name fails
(`KeyError`) so the child is skipped.  In the second, the HTML-bearing
inner ZIP collides with an already-visited sibling on the
`(entry name, byte length)` key and is pruned. -/
theorem find_leaf_incomplete_cex :
    (existsHtmlWithin 11 cexBackslash = true ∧
      find_leaf_zip_with_html cexBackslash 10 = none) ∧
    (existsHtmlWithin 11 cexSeen = true ∧ find_leaf_zip_with_html cexSeen 10 = none) :=
  ⟨⟨rfl, rfl⟩, ⟨rfl, rfl⟩⟩

lemma findStep_fold_some
    (recur : Blob → List (String × Nat) → Option Blob × List (String × Nat))
    (es : List (String × Blob)) (P : Blob → Prop)
    (hrec : ∀ c s l s2, recur c s = (some l, s2) → P l) :
    ∀ (ns : List String) (acc : Option Blob × List (String × Nat)) (l : Blob)
      (s2 : List (String × Nat)),
      ns.foldl (findStep recur es) acc = (some l, s2) → acc.1 = some l ∨ P l := by
  intro ns
  induction ns with
  | nil =>
    intro acc l s2 h
    rw [List.foldl_nil] at h
    left
    rw [h]
  | cons n rest ih =>
    intro acc l s2 h
    rw [List.foldl_cons] at h
    rcases ih _ _ _ h with h1 | h1
    · obtain ⟨o, s⟩ := acc
      cases o with
      | some r => left; simpa [findStep] using h1
      | none =>
        right
        simp only [findStep] at h1
        by_cases hz : isZipName n = false
        · rw [if_pos hz] at h1; simp at h1
        · rw [if_neg hz] at h1
          cases hre : readEntryByName es n with
          | none => rw [hre] at h1; simp at h1
          | some child =>
            rw [hre] at h1
            have h2 : (if (n, Blob.size child) ∈ s then
                  ((none, s) : Option Blob × List (String × Nat))
                else recur child ((n, Blob.size child) :: s)).1 = some l := h1
            by_cases hs : (n, Blob.size child) ∈ s
            · rw [if_pos hs] at h2; simp at h2
            · rw [if_neg hs] at h2
              exact hrec child ((n, Blob.size child) :: s) l
                (recur child ((n, Blob.size child) :: s)).2 (by rw [← h2])
    · right; exact h1

lemma findHelper_some_html :
    ∀ (fuel : Nat) (b : Blob) (seen : List (String × Nat)) (l : Blob)
      (s2 : List (String × Nat)),
      findHelper fuel b seen = (some l, s2) → (layerNames l).any isHtmlName = true := by
  intro fuel
  induction fuel with
  | zero => intro b seen l s2 h; simp [findHelper] at h
  | succ m ih =>
    intro b seen l s2 h
    cases b with
    | raw bs => simp [findHelper] at h
    | zip len es =>
      simp only [findHelper] at h
      by_cases hh : (es.map (fun e => normalize_zip_path e.1)).any isHtmlName = true
      · rw [if_pos hh] at h
        injection h with h1 h2
        injection h1 with h1
        rw [← h1]
        simpa [layerNames] using hh
      · rw [if_neg hh] at h
        rcases findStep_fold_some _ es (fun l2 => (layerNames l2).any isHtmlName = true)
            (fun c s l2 s3 hcs => ih c s l2 s3 hcs) _ _ _ _ h with h1 | h1
        · simp at h1
        · exact h1

lemma findHelper_succ_single (m len : Nat) (nm : String) (child : Blob)
    (seen : List (String × Nat)) (hnm : normalize_zip_path nm = nm)
    (hhtml : isHtmlName nm = false) (hzip : isZipName nm = true) :
    findHelper (m + 1) (Blob.zip len [(nm, child)]) seen =
      (if (nm, Blob.size child) ∈ seen then (none, seen)
       else findHelper m child ((nm, Blob.size child) :: seen)) := by
  simp [findHelper, findStep, readEntryByName, hnm, hhtml, hzip]

lemma nest_none :
    ∀ (fuel k : Nat) (seen : List (String × Nat)), fuel ≤ k →
      (findHelper fuel (nestZip k) seen).1 = none := by
  intro fuel
  induction fuel with
  | zero => intro k seen h; simp [findHelper]
  | succ m ih =>
    intro k seen h
    cases k with
    | zero => omega
    | succ k2 =>
      rw [show nestZip (k2 + 1) = Blob.zip (k2 + 3) [("inner.zip", nestZip k2)] from rfl]
      rw [findHelper_succ_single m (k2 + 3) "inner.zip" (nestZip k2) seen (by decide)
        (by decide) (by decide)]
      by_cases hs : ("inner.zip", Blob.size (nestZip k2)) ∈ seen
      · rw [if_pos hs]
      · rw [if_neg hs]
        exact ih k2 _ (by omega)

/-- C5 amended: find_leaf_zip_with_html returns only layers containing an
`.html`/`.htm` entry (the first one found by its depth-bounded traversal,
which skips child archives that cannot be read back under their
normalized names and `(entry name, byte length)` keys already visited);
it reports not-found when that pruned, depth-bounded traversal finds
none, and in particular an archive whose HTML layer is nested beyond
max_depth yields not-found (surfacing as NoHtmlLayerFound), while one at
exactly max_depth is still found. -/
theorem find_leaf_amended :
    (∀ b l : Blob, find_leaf_zip_with_html b 10 = some l →
        (layerNames l).any isHtmlName = true) ∧
    (∀ k : Nat, 10 < k → find_leaf_zip_with_html (nestZip k) 10 = none) ∧
    find_leaf_zip_with_html (nestZip 10) 10 = some (nestZip 0) := by
  refine ⟨?_, ?_, rfl⟩
  · intro b l h
    exact findHelper_some_html 11 b [] l (findHelper 11 b []).2
      (Prod.ext h rfl)
  · intro k hk
    exact nest_none 11 k [] (by omega)

/-- Witness for C5's amended statement: the flat archive is a returned
layer with an HTML entry, and nesting eleven levels deep is not found. -/
theorem find_leaf_amended_witness :
    (layerNames (nestZip 0)).any isHtmlName = true ∧
    find_leaf_zip_with_html (nestZip 11) 10 = none :=
  ⟨find_leaf_amended.1 (nestZip 10) (nestZip 0) rfl,
   find_leaf_amended.2.1 11 (by omega)⟩

lemma pick_main_html_of_any (names : List String)
    (h : names.any isHtmlName = true) : isHtmlName (pick_main_html names) = true := by
  induction names with
  | nil => simp at h
  | cons n rest ih =>
    by_cases hn : isHtmlName n = true
    · simp [pick_main_html, hn]
    · have hr : rest.any isHtmlName = true := by
        rw [List.any_cons] at h
        rcases Bool.or_eq_true_iff.mp h with h2 | h2
        · exact absurd h2 hn
        · exact h2
      simp [pick_main_html, hn, ih hr]

/-- C10: every layer returned by the Archive Navigator contains an HTML
entry, so no-override selection on it always succeeds; the NoHtmlFound
branch of the orchestrator is unreachable for such layers. -/
theorem found_layer_selectable (b l : Blob)
    (h : find_leaf_zip_with_html b 10 = some l) :
    ∃ m, selectHtml (layerNames l) none = Except.ok m := by
  have hany : (layerNames l).any isHtmlName = true :=
    findHelper_some_html 11 b [] l (findHelper 11 b []).2 (Prod.ext h rfl)
  have hpick := pick_main_html_of_any _ hany
  have hne : pick_main_html (layerNames l) ≠ "" := by
    intro he
    rw [he] at hpick
    exact absurd hpick (by decide)
  exact ⟨pick_main_html (layerNames l), by simp [selectHtml, autoSelect, hne]⟩

/-- Witness for C10 on a concrete two-entry layer. -/
theorem found_layer_selectable_witness :
    ∃ m, selectHtml (layerNames layer0) none = Except.ok m :=
  found_layer_selectable layer0 layer0 rfl

lemma lookupStr_append_of_some {l l2 : List (String × String)} {k c : String}
    (h : lookupStr k l = some c) : lookupStr k (l ++ l2) = some c := by
  induction l with
  | nil => simp [lookupStr] at h
  | cons e rest ih =>
    obtain ⟨a, b⟩ := e
    rw [List.cons_append]
    simp only [lookupStr] at h ⊢
    by_cases he : k = a
    · rw [if_pos he] at h ⊢
      exact h
    · rw [if_neg he] at h ⊢
      exact ih h

lemma lookupStr_append_self {l : List (String × String)} {r c : String}
    (h : lookupStr r l = none) : lookupStr r (l ++ [(r, c)]) = some c := by
  induction l with
  | nil => simp [lookupStr]
  | cons e rest ih =>
    obtain ⟨a, b⟩ := e
    rw [List.cons_append]
    simp only [lookupStr] at h ⊢
    by_cases he : r = a
    · rw [if_pos he] at h
      simp at h
    · rw [if_neg he] at h ⊢
      exact ih h

lemma lookupStr_append_isSome {l : List (String × String)} {r c k : String} :
    (lookupStr k (l ++ [(r, c)])).isSome = true ↔
      (lookupStr k l).isSome = true ∨ k = r := by
  induction l with
  | nil =>
    simp only [List.nil_append, lookupStr]
    by_cases he : k = r
    · simp [he]
    · simp [he, lookupStr]
  | cons e rest ih =>
    obtain ⟨a, b⟩ := e
    rw [List.cons_append]
    simp only [lookupStr]
    by_cases he : k = a
    · simp [he]
    · simp only [if_neg he]
      exact ih

lemma replace_none (co : Collab) (hn : String) (ns : List String) (st : RState)
    (m : ImgMatch) (h : resolvedOf co hn ns m = none) :
    replace_img_src co hn ns st m = (m.whole, st) := by
  simp only [resolvedOf] at h
  simp only [replace_img_src]
  by_cases hr : remoteScheme (pathCoreOf m.path) = true
  · rw [if_pos hr]
  · rw [if_neg hr] at h ⊢
    rw [Option.map_eq_none'] at h
    rw [h]

lemma replace_hit (co : Collab) (hn : String) (ns : List String) (st : RState)
    (m : ImgMatch) (r : String) (hres : resolvedOf co hn ns m = some r) :
    (lookupStr r st.cidMap = none →
      replace_img_src co hn ns st m =
        (cidReplacement m (co.cid st.counter),
          ⟨st.resources ++ [⟨r, co.cid st.counter, co.readEntry r,
              (co.guessMime r).getD "application/octet-stream"⟩],
            st.cidMap ++ [(r, co.cid st.counter)], st.inlined ++ [r],
            st.counter + 1⟩)) ∧
    (∀ c, lookupStr r st.cidMap = some c →
      replace_img_src co hn ns st m = (cidReplacement m c, st)) := by
  simp only [resolvedOf] at hres
  by_cases hr : remoteScheme (pathCoreOf m.path) = true
  · rw [if_pos hr] at hres
    simp at hres
  · rw [if_neg hr] at hres
    rw [Option.map_eq_some'] at hres
    obtain ⟨cand, hfind, hrel⟩ := hres
    constructor
    · intro hnone
      simp only [replace_img_src, if_neg hr, hfind, hrel, hnone]
    · intro c hsome
      simp only [replace_img_src, if_neg hr, hfind, hrel, hsome]

lemma stInv_step (co : Collab) (hn : String) (ns : List String) (st : RState)
    (m : ImgMatch) (hinv : stInv st) :
    stInv (replace_img_src co hn ns st m).2 ∧
    (∀ k c, lookupStr k st.cidMap = some c →
      lookupStr k (replace_img_src co hn ns st m).2.cidMap = some c) := by
  cases hres : resolvedOf co hn ns m with
  | none =>
    rw [replace_none co hn ns st m hres]
    exact ⟨hinv, fun k c h => h⟩
  | some r =>
    cases hc : lookupStr r st.cidMap with
    | some c =>
      rw [(replace_hit co hn ns st m r hres).2 c hc]
      exact ⟨hinv, fun k c2 h => h⟩
    | none =>
      rw [(replace_hit co hn ns st m r hres).1 hc]
      have hnotmem : r ∉ st.resources.map (fun x => x.name) := by
        intro hm
        rw [← hinv.1 r, hc] at hm
        simp at hm
      refine ⟨⟨?_, ?_⟩, ?_⟩
      · intro k
        dsimp only
        rw [lookupStr_append_isSome, hinv.1 k]
        simp
      · dsimp only
        rw [List.map_append, List.map_cons, List.map_nil, List.nodup_append]
        refine ⟨hinv.2, List.nodup_singleton _, ?_⟩
        intro a ha hb
        simp only [List.mem_singleton] at hb
        subst hb
        exact hnotmem ha
      · intro k c h
        exact lookupStr_append_of_some h

lemma rewritePass_spec (co : Collab) (hn : String) (ns : List String) :
    ∀ (ms : List ImgMatch) (st : RState), stInv st →
      stInv (rewritePass co hn ns st ms).2 ∧
      (∀ k c, lookupStr k st.cidMap = some c →
        lookupStr k (rewritePass co hn ns st ms).2.cidMap = some c) ∧
      (∀ (i : Nat) (hi : i < ms.length) (r : String),
        resolvedOf co hn ns (ms.get ⟨i, hi⟩) = some r →
        ∃ c, lookupStr r (rewritePass co hn ns st ms).2.cidMap = some c ∧
          (rewritePass co hn ns st ms).1[i]? =
            some (cidReplacement (ms.get ⟨i, hi⟩) c)) := by
  intro ms
  induction ms with
  | nil =>
    intro st hinv
    refine ⟨hinv, fun k c h => h, ?_⟩
    intro i hi
    simp at hi
  | cons m rest ih =>
    intro st hinv
    obtain ⟨hinv2, hmono2⟩ := stInv_step co hn ns st m hinv
    obtain ⟨ha, hb, hcI⟩ := ih (replace_img_src co hn ns st m).2 hinv2
    refine ⟨ha, ?_, ?_⟩
    · intro k c h
      exact hb k c (hmono2 k c h)
    · intro i hi r hres
      cases i with
      | zero =>
        have hres0 : resolvedOf co hn ns m = some r := hres
        cases hc : lookupStr r st.cidMap with
        | some c =>
          have hstep := (replace_hit co hn ns st m r hres0).2 c hc
          refine ⟨c, ?_, ?_⟩
          · apply hb
            rw [hstep]
            exact hc
          · have hcons : (rewritePass co hn ns st (m :: rest)).1 =
                (replace_img_src co hn ns st m).1 ::
                  (rewritePass co hn ns (replace_img_src co hn ns st m).2 rest).1 := rfl
            rw [hcons, hstep]
            simp [List.getElem?_cons_zero, List.get_cons_zero]
        | none =>
          have hstep := (replace_hit co hn ns st m r hres0).1 hc
          refine ⟨co.cid st.counter, ?_, ?_⟩
          · apply hb
            rw [hstep]
            exact lookupStr_append_self hc
          · have hcons : (rewritePass co hn ns st (m :: rest)).1 =
                (replace_img_src co hn ns st m).1 ::
                  (rewritePass co hn ns (replace_img_src co hn ns st m).2 rest).1 := rfl
            rw [hcons, hstep]
            simp [List.getElem?_cons_zero, List.get_cons_zero]
      | succ i2 =>
        have hi2 : i2 < rest.length := Nat.succ_lt_succ_iff.mp hi
        have hres2 : resolvedOf co hn ns (rest.get ⟨i2, hi2⟩) = some r := hres
        obtain ⟨c, h1, h2⟩ := hcI i2 hi2 r hres2
        refine ⟨c, h1, ?_⟩
        have hcons : (rewritePass co hn ns st (m :: rest)).1 =
            (replace_img_src co hn ns st m).1 ::
              (rewritePass co hn ns (replace_img_src co hn ns st m).2 rest).1 := rfl
        rw [hcons]
        simpa using h2

lemma count_names_one {l : List Resource} {r : String}
    (hnd : (l.map (fun x => x.name)).Nodup) (hm : r ∈ l.map (fun x => x.name)) :
    (l.filter (fun x => decide (x.name = r))).length = 1 := by
  induction l with
  | nil => simp at hm
  | cons x rest ih =>
    simp only [List.map_cons, List.nodup_cons] at hnd
    simp only [List.map_cons, List.mem_cons] at hm
    by_cases hx : x.name = r
    · have hrest : r ∉ rest.map (fun y => y.name) := by
        rw [← hx]
        exact hnd.1
      have hnil : rest.filter (fun y => decide (y.name = r)) = [] := by
        rw [List.filter_eq_nil_iff]
        intro a hal
        simp only [decide_eq_true_eq]
        intro he
        exact hrest (by rw [← he]; exact List.mem_map_of_mem _ hal)
      simp [List.filter_cons, hx, hnil]
    · have hm2 : r ∈ rest.map (fun y => y.name) := by
        rcases hm with h | h
        · exact absurd h.symm hx
        · exact h
      simp [List.filter_cons, hx, ih hnd.2 hm2]

/-- C1: in one rewrite pass, all matches whose candidates resolve to the
same canonical archive path r produce exactly one ResolvedResource for r
(resource names are duplicate-free, and exactly one resource carries r),
and each such match is rewritten to the same `cid:` identifier regardless
of the relative spelling used. -/
theorem img_src_dedup (co : Collab) (hn : String) (ns : List String)
    (ms : List ImgMatch) (i j : Nat) (hi : i < ms.length) (hj : j < ms.length)
    (r : String)
    (h1 : resolvedOf co hn ns (ms.get ⟨i, hi⟩) = some r)
    (h2 : resolvedOf co hn ns (ms.get ⟨j, hj⟩) = some r) :
    ((rewritePass co hn ns initState ms).2.resources.map (fun x => x.name)).Nodup ∧
    ((rewritePass co hn ns initState ms).2.resources.filter
        (fun x => decide (x.name = r))).length = 1 ∧
    ∃ c, (rewritePass co hn ns initState ms).1[i]? =
          some (cidReplacement (ms.get ⟨i, hi⟩) c) ∧
        (rewritePass co hn ns initState ms).1[j]? =
          some (cidReplacement (ms.get ⟨j, hj⟩) c) := by
  have hinv0 : stInv initState := by
    constructor
    · intro k
      simp [initState, lookupStr]
    · simp [initState]
  obtain ⟨hinv, hmono, hidx⟩ := rewritePass_spec co hn ns ms initState hinv0
  obtain ⟨c1, hc1, ho1⟩ := hidx i hi r h1
  obtain ⟨c2, hc2, ho2⟩ := hidx j hj r h2
  have hceq : c1 = c2 := Option.some.inj (hc1.symm.trans hc2)
  refine ⟨hinv.2, ?_, ⟨c1, ho1, ?_⟩⟩
  · apply count_names_one hinv.2
    rw [← hinv.1 r, hc1]
    rfl
  · rw [hceq]
    exact ho2

/-- Witness for C1: the spellings img/a.png and ./img/a.png dedup to one
resource and are rewritten with the same identifier. -/
theorem img_src_dedup_witness :
    ((rewritePass coId "index.html" ["img/a.png"] initState msPair).2.resources.map
        (fun x => x.name)).Nodup ∧
    ((rewritePass coId "index.html" ["img/a.png"] initState msPair).2.resources.filter
        (fun x => decide (x.name = "img/a.png"))).length = 1 ∧
    ∃ c, (rewritePass coId "index.html" ["img/a.png"] initState msPair).1[0]? =
          some (cidReplacement (msPair.get ⟨0, by decide⟩) c) ∧
        (rewritePass coId "index.html" ["img/a.png"] initState msPair).1[1]? =
          some (cidReplacement (msPair.get ⟨1, by decide⟩) c) :=
  img_src_dedup coId "index.html" ["img/a.png"] msPair 0 1 (by decide) (by decide)
    "img/a.png" (by decide) (by decide)

/-- C2: a match whose path core is an external scheme, or for which no
candidate (the path core or its percent-decoded form) resolves to an
existing archive entry, is returned byte-for-byte unchanged, and the
rewrite state — in particular the resource list — is untouched. -/
theorem img_src_unchanged (co : Collab) (hn : String) (ns : List String)
    (st : RState) (m : ImgMatch)
    (h : remoteScheme (pathCoreOf m.path) = true ∨ resolvedOf co hn ns m = none) :
    replace_img_src co hn ns st m = (ImgMatch.whole m, st) := by
  rcases h with h | h
  · simp only [replace_img_src]
    rw [if_pos h]
  · exact replace_none co hn ns st m h

/-- Witness for C2: an https reference and a missing path are preserved. -/
theorem img_src_unchanged_witness :
    replace_img_src coId "index.html" ["img/a.png"] initState mRemote =
      (ImgMatch.whole mRemote, initState) ∧
    replace_img_src coId "index.html" ["img/a.png"] initState mMissing =
      (ImgMatch.whole mMissing, initState) :=
  ⟨img_src_unchanged coId "index.html" ["img/a.png"] initState mRemote
      (Or.inl (by decide)),
   img_src_unchanged coId "index.html" ["img/a.png"] initState mMissing
      (Or.inr (by decide))⟩
